import Mathlib

/-!
# Verification of the rowboat multi-agent conversation orchestrator

A shallow embedding of `apps/rowboat/app/lib/agents.ts`: the message model,
`ensureSystemMessage`, `convertMsgsInput`, the greeting shortcut, the
call-stack reconstruction, `getNextAgentName`, the transfer/usage trackers,
the tool-handler error boundaries, the source filtering of `invokeRagTool`, and
the turn-taking main loop of `streamResponse`.

Modelling conventions:
* TypeScript numbers that hold token counts become `Int` (they are added,
  never bit-manipulated).
* The provider stream (`run(agent, inputs, {stream: true})`) is modelled as
  an oracle `Nat → List StreamEvent` giving, for each loop iteration, the
  list of structured events that the `for await` loop would observe.
* The unbounded `while (true)` loop is modelled with explicit fuel; fuel
  exhaustion is a distinguished outcome `RunResult.outOfFuel` (the real
  loop would simply still be running).
* `crypto.randomUUID()` is modelled by an opaque constant string
  `transferCallId`: the generated id is only ever used to pair the two
  synthetic transfer messages, never inspected.
* Thrown exceptions (`throw new Error(...)` and rejected promises) are
  modelled with `Except String` / a distinguished `failed` outcome.
-/

namespace Rowboat

/-- The `outputVisibility` of a workflow agent: `user_facing` or `internal`. -/
inductive OutVisibility
  | user_facing
  | internal_vis
deriving DecidableEq, Repr

/-- The `responseType` tag on emitted assistant messages: `internal` or `external`. -/
inductive ResponseType
  | internal_rt
  | external_rt
deriving DecidableEq, Repr

/-- One entry of the `toolCalls` array of an assistant message. -/
structure ToolCall where
  id : String
  name : String
  arguments : String
deriving DecidableEq, Repr

/-- The canonical `Message` union from `types/types` as used by `agents.ts`:
system/user/assistant (content may be null)/assistant-with-tool-calls
(content is null)/tool. -/
inductive Message
  | system (content : String)
  | user (content : String)
  | assistant (content : Option String) (agentName : String) (responseType : ResponseType)
  | assistantToolCalls (toolCalls : List ToolCall) (agentName : String)
  | tool (content : String) (toolCallId : String) (toolName : String)
deriving DecidableEq, Repr

/-- Whether `msg.role` is `system`. -/
def Message.isSystem : Message → Bool
  | .system _ => true
  | _ => false

/-- The `agentName` of a message whose `role` is `assistant`, covering both
assistant variants (both carry an assistant role and an `agentName`). -/
def Message.assistantAgentName : Message → Option String
  | .assistant _ name _ => some name
  | .assistantToolCalls _ name => some name
  | _ => none

/-- A workflow agent config; only the fields the orchestrator loop reads
(`name`, `outputVisibility`) are modelled. -/
structure WorkflowAgent where
  name : String
  outputVisibility : OutVisibility
deriving DecidableEq, Repr

/-- A workflow prompt config (`name`, `type`, `prompt`). -/
structure WorkflowPrompt where
  name : String
  type : String
  prompt : String
deriving DecidableEq, Repr

/-- The per-invocation workflow configuration; tool configs are omitted
because no modelled code path reads them. -/
structure Workflow where
  projectId : String
  name : String
  startAgent : String
  agents : List WorkflowAgent
  prompts : List WorkflowPrompt
deriving DecidableEq, Repr

/-- Lookup of `agentConfig[name]` where `agentConfig` is built by
`workflow.agents.reduce(...)`: later entries overwrite earlier ones. -/
def lookupAgent (agents : List WorkflowAgent) (name : String) : Option WorkflowAgent :=
  agents.foldl (fun acc a => if a.name = name then some a else acc) none

/-- Token usage triple `{total, prompt, completion}`. -/
structure Usage where
  total : Int
  prompt : Int
  completion : Int
deriving DecidableEq, Repr

def Usage.zero : Usage := ⟨0, 0, 0⟩

/-- Model of `UsageTracker.increment`: componentwise addition. -/
def Usage.add (a b : Usage) : Usage :=
  ⟨a.total + b.total, a.prompt + b.prompt, a.completion + b.completion⟩

/-- Componentwise `≤` on usage triples. -/
def Usage.le (a b : Usage) : Prop :=
  a.total ≤ b.total ∧ a.prompt ≤ b.prompt ∧ a.completion ≤ b.completion

instance (a b : Usage) : Decidable (a.le b) := by
  unfold Usage.le; infer_instance

/-- All three components nonnegative. -/
def Usage.nonneg (a : Usage) : Prop := Usage.le Usage.zero a

instance (a : Usage) : Decidable a.nonneg := by
  unfold Usage.nonneg; infer_instance

/-- Events yielded by `streamResponse`: a message or a usage snapshot. -/
inductive Event
  | message (m : Message)
  | usage (u : Usage)
deriving DecidableEq, Repr

/-- The default system content, "You are a helpful assistant.". -/
def defaultSystemContent : String := "You are a helpful assistant."

/-- Model of `ensureSystemMessage`: if the (non-empty) transcript does not start with
a system message, prepend the default one; then, if the leading system
message has falsy (empty) content, replace it with the default. The
in-place mutation is modelled functionally. -/
def ensureSystemMessage (messages : List Message) : List Message :=
  let messages :=
    match messages with
    | [] => []
    | m :: rest =>
      if m.isSystem then m :: rest
      else Message.system defaultSystemContent :: m :: rest
  match messages with
  | Message.system c :: rest =>
    if c = "" then Message.system defaultSystemContent :: rest
    else Message.system c :: rest
  | other => other

/-- The agent-sdk input items produced by `convertMsgsInput`. -/
inductive AgentInputItem
  | assistantText (text : String)
  | user (content : String)
  | system (content : String)
deriving DecidableEq, Repr

/-- Model of `convertMsgsInput`: assistant messages with truthy content become a
"Sender agent: X\nContent: Y" text block; user/system pass through; every
other message (tool messages, assistant messages whose content is null or
the empty string) is dropped. -/
def convertMsgsInput (messages : List Message) : List AgentInputItem :=
  messages.filterMap fun msg =>
    match msg with
    | .assistant (some c) name _ =>
      if c = "" then none
      else some (.assistantText ("Sender agent: " ++ name ++ "\nContent: " ++ c))
    | .assistant none _ _ => none
    | .assistantToolCalls _ _ => none
    | .user c => some (.user c)
    | .system c => some (.system c)
    | .tool _ _ _ => none

/-- The greeting text: the first prompt of type `greeting`, with the
fallback "How can I help you today?" applied when the prompt is missing or
its text is falsy. -/
def greetingPrompt (w : Workflow) : String :=
  match w.prompts.find? (fun p => p.type = "greeting") with
  | some p => if p.prompt = "" then "How can I help you today?" else p.prompt
  | none => "How can I help you today?"

/-- Model of `emitGreetingTurn`: one external assistant message from the start agent,
then a zeroed usage snapshot (a fresh `UsageTracker`). -/
def emitGreetingTurn (w : Workflow) : List Event :=
  [ .message (.assistant (some (greetingPrompt w)) w.startAgent .external_rt),
    .usage Usage.zero ]

/-- Model of `createAgentCallStack`: scan the transcript for assistant messages with
a truthy `agentName`, pushing each name while collapsing immediate repeats.
The JS array pushes/pops at the end; here the list head is the stack top. -/
def createAgentCallStack (messages : List Message) : List String :=
  messages.foldl
    (fun stack msg =>
      match msg.assistantAgentName with
      | some name =>
        if name = "" then stack
        else if stack.head? = some name then stack
        else name :: stack
      | none => stack)
    []

/-- Model of `getNextAgentName`: pop the stack; if the stack is empty (or the popped
name is falsy: `stack.pop() || workflow.startAgent`), fall back to the
start agent of the workflow. Returns the chosen name and the remaining stack. -/
def getNextAgentName (stack : List String) (startAgent : String) : String × List String :=
  match stack with
  | [] => (startAgent, [])
  | top :: rest => (if top = "" then startAgent else top, rest)

/-- Opaque stand-in for `crypto.randomUUID()` (the id is only used to pair
the two synthetic transfer messages, never inspected). -/
def transferCallId : String := "transfer-call-id"

/-- The JSON argument payload of a transfer call, naming the target agent. -/
def transferArgs (toAgent : String) : String :=
  "\x7b\"assistant\":\"" ++ toAgent ++ "\"\x7d"

/-- Model of `createTransferEvents`: the synthetic `transfer_to_agent` call/result
message pair recording a handoff from `fromAgent` to `toAgent`. -/
def createTransferEvents (fromAgent toAgent : String) : Message × Message :=
  ( .assistantToolCalls
      [⟨transferCallId, "transfer_to_agent", transferArgs toAgent⟩] fromAgent,
    .tool (transferArgs toAgent) transferCallId "transfer_to_agent" )

/-- One output item of a completed provider response. -/
inductive OutputItem
  | functionCall (callId : String) (name : String) (arguments : String)
  | otherOutput
deriving DecidableEq, Repr

/-- The structured provider-stream events the `for await` loop reacts to.
`responseDone` is a `raw_model_stream_event` whose data is `response_done`;
`handoffOccurred` is a `run_item_stream_event` named `handoff_occurred`
with a `handoff_output_item`; `toolCallOutput` is a completed
`function_call_result` with text output; `messageOutput` is a completed
`message_output_item`, carrying its `output_text` segments. Every event
shape the code ignores is `otherEvent`. -/
inductive StreamEvent
  | responseDone (output : List OutputItem) (usage : Usage)
  | handoffOccurred (targetAgent : String)
  | toolCallOutput (callId : String) (name : String) (text : String)
  | messageOutput (texts : List String)
  | otherEvent
deriving DecidableEq, Repr

/-- Mutable state of the `turnLoop`: the active agent, the call stack
(list head = stack top), the running transcript `turnMsgs` (appended at the
end), the usage tracker, and the transfer counter (modelled as the list of
`increment(from, to)` calls; the count for a pair is its multiplicity). -/
structure LoopState where
  agentName : String
  stack : List String
  turnMsgs : List Message
  usage : Usage
  transfers : List (String × String)
deriving DecidableEq, Repr

/-- Result of handling one stream event: either continue consuming the same
stream, or (internal agent produced a message) abandon the stream and
re-enter the outer loop (`continue turnLoop`). -/
inductive EventOutcome
  | next (st : LoopState) (emitted : List Event)
  | reenter (st : LoopState) (emitted : List Event)
deriving DecidableEq, Repr

/-- The body of the `for await (const event of result)` switch in
`streamResponse`, for a single event. -/
def handleStreamEvent (w : Workflow) (ev : StreamEvent) (st : LoopState) : EventOutcome :=
  match ev with
  | .responseDone outputs u =>
    -- one assistant-with-tool-calls message per function_call output whose
    -- name does not start with the reserved transfer prefix; then the usage increment
    let msgs := outputs.filterMap fun o =>
      match o with
      | .functionCall callId name args =>
        if name.startsWith "transfer_to" then none
        else some (Message.assistantToolCalls [⟨callId, name, args⟩] st.agentName)
      | .otherOutput => none
    .next { st with
              turnMsgs := st.turnMsgs ++ msgs,
              usage := st.usage.add u }
      (msgs.map Event.message)
  | .handoffOccurred target =>
    if st.agentName = target then
      -- skipping handoff to same agent
      .next st []
    else
      let (m1, m2) := createTransferEvents st.agentName target
      .next { st with
                turnMsgs := st.turnMsgs ++ [m1, m2],
                transfers := st.transfers ++ [(st.agentName, target)],
                stack := st.agentName :: st.stack,
                agentName := target }
        [.message m1, .message m2]
  | .toolCallOutput callId name text =>
    let m := Message.tool text callId name
    .next { st with turnMsgs := st.turnMsgs ++ [m] } [.message m]
  | .messageOutput texts =>
    let isInternal : Bool :=
      match lookupAgent w.agents st.agentName with
      | some cfg => cfg.outputVisibility = OutVisibility.internal_vis
      | none => false
    let rt := if isInternal then ResponseType.internal_rt else ResponseType.external_rt
    let msgs := texts.map fun t => Message.assistant (some t) st.agentName rt
    let st1 := { st with turnMsgs := st.turnMsgs ++ msgs }
    if isInternal then
      -- internal agent put out a message: hand control back via the stack
      let current := st1.agentName
      let (nextName, stack1) := getNextAgentName st1.stack w.startAgent
      let (m1, m2) := createTransferEvents current nextName
      .reenter { st1 with
                   turnMsgs := st1.turnMsgs ++ [m1, m2],
                   transfers := st1.transfers ++ [(current, nextName)],
                   stack := current :: stack1,
                   agentName := nextName }
        (msgs.map Event.message ++ [.message m1, .message m2])
    else
      .next st1 (msgs.map Event.message)
  | .otherEvent => .next st []

/-- How one provider stream ends: with an internal re-entry
(`continue turnLoop`, discarding the remaining events) or by running out
of events. -/
inductive IterResult
  | reentry (st : LoopState) (emitted : List Event)
  | endOfStream (st : LoopState) (emitted : List Event)
deriving DecidableEq, Repr

/-- Prefix already-emitted events onto the events of an iteration result
(the events of an iteration are yielded in the order produced). -/
def IterResult.prepend (em : List Event) : IterResult → IterResult
  | .reentry st em' => .reentry st (em ++ em')
  | .endOfStream st em' => .endOfStream st (em ++ em')

/-- Consume one provider stream: handle events in order, stopping early on
an internal re-entry. -/
def processEvents (w : Workflow) (events : List StreamEvent) (st : LoopState) : IterResult :=
  match events with
  | [] => .endOfStream st []
  | ev :: rest =>
    match handleStreamEvent w ev st with
    | .reenter st' em => .reentry st' em
    | .next st' em => (processEvents w rest st').prepend em

/-- The end-of-iteration completion test: the configured
visibility of the active agent is `user_facing` and the last transcript message is an assistant
message with non-null content whose `agentName` is the active agent. -/
def turnCompleteCheck (w : Workflow) (st : LoopState) : Bool :=
  (match lookupAgent w.agents st.agentName with
   | some cfg => cfg.outputVisibility = OutVisibility.user_facing
   | none => false)
  &&
  (match st.turnMsgs.getLast? with
   | some (Message.assistant (some _) name _) => name = st.agentName
   | _ => false)

/-- Outcome of one iteration of the `turnLoop`. -/
inductive StepResult
  | fatal
  | again (st : LoopState) (emitted : List Event)
  | complete (st : LoopState) (emitted : List Event)
deriving DecidableEq, Repr

/-- One iteration of the `turnLoop`: resolve the active agent (a missing
agent throws), consume the provider stream for this iteration, then apply
the completion test — unless the stream ended in an internal re-entry, in
which case the test is skipped (`continue turnLoop`). -/
def loopStep (w : Workflow) (events : List StreamEvent) (st : LoopState) : StepResult :=
  if (lookupAgent w.agents st.agentName).isNone then .fatal
  else
    match processEvents w events st with
    | .reentry st' em => .again st' em
    | .endOfStream st' em =>
      if turnCompleteCheck w st' then .complete st' em
      else .again st' em

/-- Result of running the loop to its end: `completed` carries all yielded
events (with the final usage snapshot last), `failed` models a thrown
error after the events yielded so far, `outOfFuel` means the loop was
still running when the fuel ran out. -/
inductive RunResult
  | completed (events : List Event)
  | failed (events : List Event)
  | outOfFuel
deriving DecidableEq, Repr

/-- The `turnLoop`, fuelled. `oracle i` is the provider stream consumed by
iteration `i`. On completion the final usage snapshot is appended. -/
def runLoop (fuel : Nat) (w : Workflow) (oracle : Nat → List StreamEvent)
    (iter : Nat) (st : LoopState) (acc : List Event) : RunResult :=
  match fuel with
  | 0 => .outOfFuel
  | fuel + 1 =>
    match loopStep w (oracle iter) st with
    | .fatal => .failed acc
    | .complete st' em => .completed (acc ++ em ++ [.usage st'.usage])
    | .again st' em => runLoop fuel w oracle (iter + 1) st' (acc ++ em)

/-- Model of `streamResponse`: repair the system message; if the repaired transcript
is exactly one system message, emit the greeting turn and stop (no tool or
agent construction); otherwise reconstruct the call stack, pick the initial
agent by popping it, and run the turn loop. -/
def streamResponse (fuel : Nat) (w : Workflow) (oracle : Nat → List StreamEvent)
    (messages : List Message) : RunResult :=
  let messages := ensureSystemMessage messages
  match messages with
  | [Message.system _] => .completed (emitGreetingTurn w)
  | _ =>
    let stack0 := createAgentCallStack messages
    let (agentName0, stack1) := getNextAgentName stack0 w.startAgent
    let st0 : LoopState :=
      { agentName := agentName0, stack := stack1, turnMsgs := messages,
        usage := Usage.zero, transfers := [] }
    runLoop fuel w oracle 0 st0 []

/-- Projection to the state carried by an event outcome. -/
def EventOutcome.state : EventOutcome → LoopState
  | .next st _ => st
  | .reenter st _ => st

/-- Projection to the state carried by an iteration result. -/
def IterResult.state : IterResult → LoopState
  | .reentry st _ => st
  | .endOfStream st _ => st

/-- The usage delta an event contributes: the `response_done` usage block,
zero for every other event. -/
def eventDelta : StreamEvent → Usage
  | .responseDone _ u => u
  | _ => Usage.zero

/-- Componentwise sum of the usage deltas of a list of stream events. -/
def sumDeltas (events : List StreamEvent) : Usage :=
  events.foldr (fun e acc => (eventDelta e).add acc) Usage.zero

/-! ## Tool handlers

The `execute` bodies of `createMockTool` / `createMcpTool` /
`createComposioTool` wrap the underlying invocation in try/catch and
return a JSON payload either way. A throwing invocation is modelled as
`Except.error` carrying the error message; the returned
`JSON.stringify({result})` / `JSON.stringify({error})` payload is modelled
by the tagged type `ToolResultJson`. -/

/-- The JSON payload shape a tool handler returns: `{result: ...}` on
success, `{error: <message>}` on failure. -/
inductive ToolResultJson
  | result (value : String)
  | error (message : String)
deriving DecidableEq, Repr

/-- The `execute` body of `createMockTool`: the `invokeMockTool` outcome, caught. -/
def mockToolExecute (invocation : Except String String) : ToolResultJson :=
  match invocation with
  | .ok text => .result text
  | .error e => .error ("Mock tool execution failed: " ++ e)

/-- The `execute` body of `createMcpTool`: the `invokeMcpTool` outcome, caught. -/
def mcpToolExecute (invocation : Except String String) : ToolResultJson :=
  match invocation with
  | .ok r => .result r
  | .error e => .error ("Tool execution failed: " ++ e)

/-- The `composioData` of a composio workflow tool. -/
structure ComposioData where
  slug : String
  toolkitSlug : String
  noAuth : Bool
deriving DecidableEq, Repr

/-- A project record, as far as `invokeComposioTool` reads it: the map
`composioConnectedAccounts` from toolkit slug to connected-account id. -/
structure Project where
  composioConnectedAccounts : List (String × String)
deriving DecidableEq, Repr

/-- Model of `invokeComposioTool`: unless `noAuth`, resolve the stored
connected-account id (throwing if the project is missing or the id is
falsy), then execute the remote tool with that credential. `findProject`
models `projectsCollection.findOne`; `execute` models
`composio.tools.execute` applied to the resolved `connectedAccountId`. -/
def invokeComposioTool (projectId : String) (composioData : ComposioData)
    (findProject : Option Project)
    (execute : Option String → Except String String) : Except String String :=
  if composioData.noAuth then execute none
  else
    match findProject with
    | none => .error ("project " ++ projectId ++ " not found")
    | some project =>
      match project.composioConnectedAccounts.lookup composioData.toolkitSlug with
      | none => .error ("connected account id not found for project " ++ projectId
          ++ " and toolkit " ++ composioData.toolkitSlug)
      | some accountId =>
        if accountId = "" then
          .error ("connected account id not found for project " ++ projectId
            ++ " and toolkit " ++ composioData.toolkitSlug)
        else execute (some accountId)

/-- The `execute` body of `createComposioTool`: the `invokeComposioTool`
outcome, caught. -/
def composioToolExecute (projectId : String) (composioData : ComposioData)
    (findProject : Option Project)
    (execute : Option String → Except String String) : ToolResultJson :=
  match invokeComposioTool projectId composioData findProject execute with
  | .ok r => .result r
  | .error e => .error ("Tool execution failed: " ++ e)

/-! ## RAG tool -/

/-- A data source record, as far as `invokeRagTool` reads it. -/
structure DataSource where
  id : String
  projectId : String
  active : Bool
deriving DecidableEq, Repr

/-- A ranked search record `{title, name, content, docId, sourceId}`. -/
structure RagRecord where
  title : String
  name : String
  content : String
  docId : String
  sourceId : String
deriving DecidableEq, Repr

/-- The `ragReturnType` setting: `chunks` or `content`. -/
inductive RagReturnType
  | chunks
  | content
deriving DecidableEq, Repr

/-- Model of `invokeRagTool`. `allSources` models the `dataSourcesCollection`
contents; the mongo query restricts to the active sources of the project.
`search` models the qdrant vector query, given the valid source ids and
the limit `k` (the query embedding is opaque, folded into `search`).
`docs` models `dataSourceDocsCollection` as docId → content. When no
configured source id is active, the empty list is returned before any
vector search. -/
def invokeRagTool (allSources : List DataSource)
    (search : List String → Nat → List RagRecord)
    (docs : List (String × String))
    (projectId : String) (sourceIds : List String)
    (returnType : RagReturnType) (k : Nat) : List RagRecord :=
  let sources := allSources.filter fun s => s.projectId = projectId && s.active
  let validSourceIds :=
    (((sources.filter fun s => sourceIds.contains s.id).filter fun s => s.active).map
      fun s => s.id)
  if validSourceIds.isEmpty then []
  else
    let results := search validSourceIds k
    match returnType with
    | .chunks => results
    | .content =>
      -- resolve parent documents, defaulting missing content to the empty string
      results.map fun r =>
        { r with content := ((docs.lookup r.docId).getD "") }

/-! ## Helper lemmas -/

theorem Usage.add_zero_right (a : Usage) : a.add Usage.zero = a := by
  cases a; simp [Usage.add, Usage.zero]

theorem Usage.add_assoc' (a b c : Usage) : (a.add b).add c = a.add (b.add c) := by
  cases a; cases b; cases c; simp [Usage.add]; omega

theorem Usage.le_refl' (a : Usage) : a.le a := by
  unfold Usage.le; omega

theorem Usage.le_trans' {a b c : Usage} (h1 : a.le b) (h2 : b.le c) : a.le c := by
  unfold Usage.le at *; omega

theorem Usage.le_add_of_nonneg {b : Usage} (a : Usage) (h : b.nonneg) :
    a.le (a.add b) := by
  unfold Usage.nonneg Usage.le Usage.zero at *
  cases a; cases b; simp [Usage.add] at *; omega

theorem sumDeltas_nil : sumDeltas [] = Usage.zero := rfl

theorem sumDeltas_cons (e : StreamEvent) (evs : List StreamEvent) :
    sumDeltas (e :: evs) = (eventDelta e).add (sumDeltas evs) := rfl

theorem sumDeltas_nonneg {evs : List StreamEvent}
    (h : ∀ e ∈ evs, (eventDelta e).nonneg) : (sumDeltas evs).nonneg := by
  induction evs with
  | nil =>
    unfold Usage.nonneg Usage.le
    simp [sumDeltas_nil, Usage.zero]
  | cons e rest ih =>
    have he := h e (by simp)
    have hrest := ih (fun x hx => h x (by simp [hx]))
    rw [sumDeltas_cons]
    unfold Usage.nonneg Usage.le Usage.zero at *
    simp [Usage.add] at *
    omega

/-! ## Claim theorems -/

/-- C3: for every transcript whose first message is not a system message,
`ensureSystemMessage` prepends exactly one default system message
("You are a helpful assistant."), so that afterwards the first message is
a system message; and a leading system message with empty (falsy) content
has its content replaced by the same default. -/
theorem ensureSystemMessage_repairs (messages : List Message)
    (m : Message) (rest : List Message)
    (hm : messages = m :: rest) (hns : m.isSystem = false) :
    ensureSystemMessage messages = Message.system defaultSystemContent :: messages ∧
    (ensureSystemMessage messages).head? = some (Message.system defaultSystemContent) ∧
    (∀ rest' : List Message,
      ensureSystemMessage (Message.system "" :: rest') =
        Message.system defaultSystemContent :: rest') := by
  subst hm
  have h1 : ensureSystemMessage (m :: rest) =
      Message.system defaultSystemContent :: m :: rest := by
    simp [ensureSystemMessage, hns, defaultSystemContent]
  refine ⟨h1, by rw [h1]; rfl, ?_⟩
  intro rest'
  simp [ensureSystemMessage, Message.isSystem]

/-- C3 witness: a concrete transcript starting with a user message. -/
theorem ensureSystemMessage_repairs_witness :
    ensureSystemMessage [Message.user "hi"] =
      Message.system defaultSystemContent :: [Message.user "hi"] :=
  (ensureSystemMessage_repairs [Message.user "hi"] (Message.user "hi") [] rfl rfl).1

/-- C7: a handoff event whose target equals the active agent is a no-op:
no transfer message pair is produced, nothing is appended to the
transcript, the transfer counter is not incremented, the active agent and
the call stack are unchanged, and processing simply moves on to the
remaining events of the same stream. -/
theorem self_handoff_noop (w : Workflow) (t : String)
    (rest : List StreamEvent) (st : LoopState) (h : st.agentName = t) :
    handleStreamEvent w (.handoffOccurred t) st = .next st [] ∧
    processEvents w (.handoffOccurred t :: rest) st = processEvents w rest st := by
  have h1 : handleStreamEvent w (.handoffOccurred t) st = .next st [] := by
    simp [handleStreamEvent, h]
  refine ⟨h1, ?_⟩
  cases hr : processEvents w rest st <;> simp [processEvents, h1, hr, IterResult.prepend]

/-- C7 witness: a concrete self-handoff. -/
theorem self_handoff_noop_witness :
    handleStreamEvent ⟨"p", "w", "A", [], []⟩ (.handoffOccurred "A")
      ⟨"A", [], [], Usage.zero, []⟩ =
      .next ⟨"A", [], [], Usage.zero, []⟩ [] :=
  (self_handoff_noop ⟨"p", "w", "A", [], []⟩ "A" []
    ⟨"A", [], [], Usage.zero, []⟩ rfl).1

/-- C9: a RAG invocation for which none of the configured data-source ids
matches a data source that is active for the project returns the empty
result list (for every vector-search backend, i.e. without performing a
search), rather than an error. -/
theorem ragTool_inactive_sources_empty (allSources : List DataSource)
    (search : List String → Nat → List RagRecord) (docs : List (String × String))
    (projectId : String) (sourceIds : List String)
    (rt : RagReturnType) (k : Nat)
    (h : ∀ s ∈ allSources, s.projectId = projectId → s.active = true →
      sourceIds.contains s.id = false) :
    invokeRagTool allSources search docs projectId sourceIds rt k = [] := by
  have h2 : ((allSources.filter fun s => s.projectId = projectId && s.active).filter
      fun s => sourceIds.contains s.id) = [] := by
    rw [List.filter_eq_nil_iff]
    intro s hs
    rw [List.mem_filter, Bool.and_eq_true] at hs
    have hc := h s hs.1 (by simpa using hs.2.1) hs.2.2
    simpa using hc
  have hempty : ((((allSources.filter fun s => s.projectId = projectId && s.active).filter
      fun s => sourceIds.contains s.id).filter fun s => s.active).map fun s => s.id) = [] := by
    rw [h2]; rfl
  simp only [invokeRagTool]
  rw [hempty]
  rfl

/-- C9 witness: one configured id, no matching active source. -/
theorem ragTool_inactive_sources_empty_witness :
    invokeRagTool [⟨"src1", "p", false⟩] (fun _ _ => [⟨"t", "n", "c", "d", "s"⟩]) []
      "p" ["src1"] RagReturnType.chunks 3 = [] :=
  ragTool_inactive_sources_empty [⟨"src1", "p", false⟩]
    (fun _ _ => [⟨"t", "n", "c", "d", "s"⟩]) [] "p" ["src1"] RagReturnType.chunks 3
    (by intro s hs h1 h2; simp at hs; rw [hs] at h2; simp at h2)

/-- C6: the mock, MCP and composio tool handlers are total: a successful
underlying invocation is returned wrapped as `{result: ...}`, and a
throwing invocation is caught and returned as an `{error: <message>}`
payload — including the composio handler internal missing-project and
missing-connected-account errors — so no exception from a tool call ever
reaches the orchestrator loop. -/
theorem tool_handlers_error_boundary :
    (∀ v : String, mockToolExecute (.ok v) = .result v) ∧
    (∀ e : String, mockToolExecute (.error e) =
      .error ("Mock tool execution failed: " ++ e)) ∧
    (∀ v : String, mcpToolExecute (.ok v) = .result v) ∧
    (∀ e : String, mcpToolExecute (.error e) =
      .error ("Tool execution failed: " ++ e)) ∧
    (∀ (pid : String) (cd : ComposioData) (fp : Option Project)
        (exec : Option String → Except String String),
      (∃ v, invokeComposioTool pid cd fp exec = .ok v ∧
        composioToolExecute pid cd fp exec = .result v) ∨
      (∃ e, invokeComposioTool pid cd fp exec = .error e ∧
        composioToolExecute pid cd fp exec =
          .error ("Tool execution failed: " ++ e))) ∧
    (∀ (pid slug tks : String) (exec : Option String → Except String String),
      composioToolExecute pid ⟨slug, tks, false⟩ none exec =
        .error ("Tool execution failed: " ++
          ("project " ++ pid ++ " not found"))) := by
  refine ⟨fun v => rfl, fun e => rfl, fun v => rfl, fun e => rfl, ?_, ?_⟩
  · intro pid cd fp exec
    cases hinv : invokeComposioTool pid cd fp exec with
    | ok v => exact Or.inl ⟨v, rfl, by simp [composioToolExecute, hinv]⟩
    | error e => exact Or.inr ⟨e, rfl, by simp [composioToolExecute, hinv]⟩
  · intro pid slug tks exec
    simp [composioToolExecute, invokeComposioTool]

/-- C10 counterexample: an assistant message whose content is the empty
string — non-null, but falsy — is dropped by `convertMsgsInput`, so the
conversion does not forward every assistant message with non-null
content. -/
theorem convertMsgsInput_counterexample :
    convertMsgsInput [Message.assistant (some "") "agent_a" ResponseType.external_rt] = []
    ∧ (some "" : Option String) ≠ none := by
  exact ⟨rfl, by simp⟩

/-- C10 (amended): `convertMsgsInput` forwards system messages, user
messages, and assistant messages with truthy (non-null and non-empty)
content, the latter rewritten as a "Sender agent: X\nContent: Y" text
block; tool messages and assistant messages whose content is null or the
empty string (including tool-call records and synthetic transfer pairs)
are silently omitted. -/
theorem convertMsgsInput_amended :
    (∀ (pre post : List Message) (c tcid tn : String),
      convertMsgsInput (pre ++ Message.tool c tcid tn :: post) =
        convertMsgsInput (pre ++ post)) ∧
    (∀ (pre post : List Message) (tcs : List ToolCall) (name : String),
      convertMsgsInput (pre ++ Message.assistantToolCalls tcs name :: post) =
        convertMsgsInput (pre ++ post)) ∧
    (∀ (pre post : List Message) (name : String) (rt : ResponseType),
      convertMsgsInput (pre ++ Message.assistant none name rt :: post) =
        convertMsgsInput (pre ++ post)) ∧
    (∀ (pre post : List Message) (name : String) (rt : ResponseType),
      convertMsgsInput (pre ++ Message.assistant (some "") name rt :: post) =
        convertMsgsInput (pre ++ post)) ∧
    (∀ (pre post : List Message) (c name : String) (rt : ResponseType), c ≠ "" →
      convertMsgsInput (pre ++ Message.assistant (some c) name rt :: post) =
        convertMsgsInput pre ++
          AgentInputItem.assistantText ("Sender agent: " ++ name ++ "\nContent: " ++ c) ::
          convertMsgsInput post) ∧
    (∀ (pre post : List Message) (c : String),
      convertMsgsInput (pre ++ Message.user c :: post) =
        convertMsgsInput pre ++ AgentInputItem.user c :: convertMsgsInput post) ∧
    (∀ (pre post : List Message) (c : String),
      convertMsgsInput (pre ++ Message.system c :: post) =
        convertMsgsInput pre ++ AgentInputItem.system c :: convertMsgsInput post) := by
  refine ⟨?_, ?_, ?_, ?_, ?_, ?_, ?_⟩ <;>
    intros <;>
    simp_all [convertMsgsInput, List.filterMap_append, List.filterMap_cons]

/-- C10 witness for the amended claim: one assistant message with
non-empty content between a user and a tool message. -/
theorem convertMsgsInput_amended_witness :
    convertMsgsInput [Message.user "q",
      Message.assistant (some "hi") "agent_a" ResponseType.external_rt] =
      [AgentInputItem.user "q",
       AgentInputItem.assistantText ("Sender agent: " ++ "agent_a" ++ "\nContent: " ++ "hi")] := by
  have h := convertMsgsInput_amended.2.2.2.2.1 [Message.user "q"] []
    "hi" "agent_a" ResponseType.external_rt (by simp)
  rw [show [Message.user "q",
      Message.assistant (some "hi") "agent_a" ResponseType.external_rt] =
    [Message.user "q"] ++
      Message.assistant (some "hi") "agent_a" ResponseType.external_rt :: [] from rfl]
  rw [h]
  rfl

/-- C4: for every transcript that, after system-message repair, is exactly
one system message, `streamResponse` emits exactly one assistant message —
content the configured greeting prompt or the fallback, tagged with the
start agent and external visibility — then exactly one all-zero usage
event, and terminates (for every provider oracle and fuel, without
running the loop). -/
theorem streamResponse_greeting_shortcut (fuel : Nat) (w : Workflow)
    (oracle : Nat → List StreamEvent) (messages : List Message) (c : String)
    (h : ensureSystemMessage messages = [Message.system c]) :
    streamResponse fuel w oracle messages =
      .completed
        [.message (.assistant (some (greetingPrompt w)) w.startAgent .external_rt),
         .usage Usage.zero] := by
  simp [streamResponse, h, emitGreetingTurn]

/-- C4 witness: a transcript of a single non-empty system message, a
workflow with no greeting prompt (fallback applies). -/
theorem streamResponse_greeting_shortcut_witness :
    streamResponse 0 ⟨"p", "w", "A", [], []⟩ (fun _ => []) [Message.system "hello"] =
      .completed
        [.message (.assistant (some "How can I help you today?") "A" .external_rt),
         .usage Usage.zero] := by
  have h := streamResponse_greeting_shortcut 0 ⟨"p", "w", "A", [], []⟩ (fun _ => [])
    [Message.system "hello"] "hello" (by simp [ensureSystemMessage, Message.isSystem])
  exact h

/-- The completion test, spelled out: the active agent resolves to a
config with `user_facing` visibility and the last transcript message is an
assistant message with non-null content authored by the active agent. -/
theorem turnCompleteCheck_iff (w : Workflow) (st : LoopState) :
    turnCompleteCheck w st = true ↔
      ((∃ cfg, lookupAgent w.agents st.agentName = some cfg ∧
          cfg.outputVisibility = OutVisibility.user_facing) ∧
       (∃ c rt, st.turnMsgs.getLast? = some (Message.assistant (some c) st.agentName rt))) := by
  unfold turnCompleteCheck
  rw [Bool.and_eq_true]
  constructor
  · rintro ⟨h1, h2⟩
    constructor
    · cases hl : lookupAgent w.agents st.agentName with
      | none => rw [hl] at h1; simp at h1
      | some cfg =>
        rw [hl] at h1
        exact ⟨cfg, rfl, by simpa using h1⟩
    · cases hg : st.turnMsgs.getLast? with
      | none => rw [hg] at h2; simp at h2
      | some m =>
        rw [hg] at h2
        cases m with
        | assistant content name rt =>
          cases content with
          | none => simp at h2
          | some c =>
            have hn : name = st.agentName := by simpa using h2
            subst hn
            exact ⟨c, rt, rfl⟩
        | system _ => simp at h2
        | user _ => simp at h2
        | assistantToolCalls _ _ => simp at h2
        | tool _ _ _ => simp at h2
  · rintro ⟨⟨cfg, hl, hvis⟩, c, rt, hg⟩
    rw [hl, hg]
    simp [hvis]

/-- When the active agent exists and the stream ends in an internal
re-entry, the iteration loops again with the re-entry state. -/
theorem loopStep_of_reentry {w : Workflow} {events : List StreamEvent}
    {st st' : LoopState} {em : List Event}
    (hnone : (lookupAgent w.agents st.agentName).isNone = false)
    (hp : processEvents w events st = .reentry st' em) :
    loopStep w events st = .again st' em := by
  unfold loopStep; rw [hnone, hp]; rfl

/-- When the active agent exists and the stream runs to its end, the
outcome of the iteration is decided by the completion test. -/
theorem loopStep_of_endOfStream {w : Workflow} {events : List StreamEvent}
    {st st' : LoopState} {em : List Event}
    (hnone : (lookupAgent w.agents st.agentName).isNone = false)
    (hp : processEvents w events st = .endOfStream st' em) :
    loopStep w events st =
      if turnCompleteCheck w st' = true then .complete st' em else .again st' em := by
  unfold loopStep; rw [hnone, hp]; rfl

/-- C1: the orchestrator loop exits with turn-complete exactly when, at
the end of a provider stream, the active agent has configured output
visibility is `user_facing` and the last transcript message is an
assistant message with non-null content whose agent name equals the
active agent; at every other end of stream, and after every internal
re-entry, the loop runs another iteration instead of completing. -/
theorem streamResponse_turn_completion (w : Workflow) (events : List StreamEvent)
    (st : LoopState) (hagent : (lookupAgent w.agents st.agentName).isSome = true) :
    (∀ st' em, loopStep w events st = .complete st' em ↔
        (processEvents w events st = .endOfStream st' em ∧
         (∃ cfg, lookupAgent w.agents st'.agentName = some cfg ∧
            cfg.outputVisibility = OutVisibility.user_facing) ∧
         (∃ c rt, st'.turnMsgs.getLast? =
            some (Message.assistant (some c) st'.agentName rt)))) ∧
    (∀ st' em, processEvents w events st = .endOfStream st' em →
        turnCompleteCheck w st' = false → loopStep w events st = .again st' em) ∧
    (∀ st' em, processEvents w events st = .reentry st' em →
        loopStep w events st = .again st' em) := by
  obtain ⟨cfg0, hcfg0⟩ := Option.isSome_iff_exists.mp hagent
  have hnone : (lookupAgent w.agents st.agentName).isNone = false := by
    rw [hcfg0]; rfl
  refine ⟨?_, ?_, ?_⟩
  · intro st' em
    constructor
    · intro h
      cases hp : processEvents w events st with
      | reentry st'' em'' =>
        rw [loopStep_of_reentry hnone hp] at h
        simp at h
      | endOfStream st'' em'' =>
        rw [loopStep_of_endOfStream hnone hp] at h
        by_cases hc : turnCompleteCheck w st'' = true
        · rw [if_pos hc] at h
          injection h with h1 h2
          subst h1; subst h2
          exact ⟨rfl, (turnCompleteCheck_iff w _).mp hc⟩
        · rw [if_neg hc] at h; simp at h
    · rintro ⟨hp, hcheck⟩
      rw [loopStep_of_endOfStream hnone hp,
        if_pos ((turnCompleteCheck_iff w st').mpr hcheck)]
  · intro st' em hp hfalse
    rw [loopStep_of_endOfStream hnone hp, if_neg (by rw [hfalse]; simp)]
  · intro st' em hp
    exact loopStep_of_reentry hnone hp

/-- C1 witness: a user-facing agent whose stream ended with its own
assistant message completes the turn on the empty remaining stream. -/
theorem streamResponse_turn_completion_witness :
    loopStep ⟨"p", "w", "A", [⟨"A", OutVisibility.user_facing⟩], []⟩ []
      ⟨"A", [], [Message.assistant (some "hi") "A" ResponseType.external_rt],
        Usage.zero, []⟩ =
      .complete
        ⟨"A", [], [Message.assistant (some "hi") "A" ResponseType.external_rt],
          Usage.zero, []⟩ [] := by
  have h := streamResponse_turn_completion
    ⟨"p", "w", "A", [⟨"A", OutVisibility.user_facing⟩], []⟩ []
    ⟨"A", [], [Message.assistant (some "hi") "A" ResponseType.external_rt],
      Usage.zero, []⟩ (by rfl)
  exact (h.1 _ []).mpr ⟨rfl, ⟨⟨"A", OutVisibility.user_facing⟩, rfl, rfl⟩,
    ⟨"hi", ResponseType.external_rt, rfl⟩⟩

/-- Workflow for the hand-back scenario: three internal agents W, X, Y. -/
def handoffScenarioWorkflow : Workflow :=
  { projectId := "p", name := "wf", startAgent := "W",
    agents := [⟨"W", .internal_vis⟩, ⟨"X", .internal_vis⟩, ⟨"Y", .internal_vis⟩],
    prompts := [] }

/-- Loop state in which X is active and the prior caller W of X is on the call
stack. -/
def handoffScenarioState : LoopState :=
  { agentName := "X", stack := ["W"], turnMsgs := [], usage := Usage.zero,
    transfers := [] }

/-- C2 counterexample: with X active and the prior caller W of X on the stack,
X hands off to Y and Y (internal) completes with a message; the loop
re-enters with active agent X — the agent that handed off, which was
pushed by the handoff — and not the prior caller W of X. -/
theorem handoff_unwind_counterexample :
    (processEvents handoffScenarioWorkflow
      [.handoffOccurred "Y", .messageOutput ["done"]]
      handoffScenarioState).state.agentName = "X" ∧
    (processEvents handoffScenarioWorkflow
      [.handoffOccurred "Y", .messageOutput ["done"]]
      handoffScenarioState).state.agentName ≠ "W" ∧
    (processEvents handoffScenarioWorkflow
      [.handoffOccurred "Y", .messageOutput ["done"]]
      handoffScenarioState).state.stack = ["Y", "W"] := by
  refine ⟨by decide, by decide, by decide⟩

/-- C2 (amended): after internal agent X hands off to Y and Y — internal —
completes with a message, control returns to X itself, the agent that
handed off (the call-stack top pushed by the handoff), regardless of the
declared hand-off targets of Y; Y is pushed above the prior callers of X. -/
theorem handoff_returns_to_handing_agent (w : Workflow) (st : LoopState)
    (y text : String) (cfg : WorkflowAgent)
    (hne : st.agentName ≠ y) (hx : st.agentName ≠ "")
    (hy : lookupAgent w.agents y = some cfg)
    (hvis : cfg.outputVisibility = OutVisibility.internal_vis) :
    ∃ st' em,
      processEvents w [.handoffOccurred y, .messageOutput [text]] st =
        .reentry st' em ∧
      st'.agentName = st.agentName ∧ st'.stack = y :: st.stack := by
  simp only [processEvents, handleStreamEvent, if_neg hne, hy, hvis,
    createTransferEvents, getNextAgentName, if_neg hx]
  exact ⟨_, _, rfl, rfl, rfl⟩

/-- C2 witness for the amended claim: the concrete W/X/Y scenario. -/
theorem handoff_returns_to_handing_agent_witness :
    ∃ st' em,
      processEvents handoffScenarioWorkflow
        [.handoffOccurred "Y", .messageOutput ["done"]] handoffScenarioState =
        .reentry st' em ∧
      st'.agentName = "X" ∧ st'.stack = ["Y", "W"] :=
  handoff_returns_to_handing_agent handoffScenarioWorkflow handoffScenarioState
    "Y" "done" ⟨"Y", .internal_vis⟩ (by decide) (by decide) (by decide) rfl

/-- A workflow of two internal agents that will hand control back and
forth forever. -/
def cyclicWorkflow : Workflow :=
  { projectId := "p", name := "cyclic", startAgent := "A",
    agents := [⟨"A", .internal_vis⟩, ⟨"B", .internal_vis⟩], prompts := [] }

/-- A provider that, on every invocation, has the active agent produce one
completed message (which, for an internal agent, always forces a re-entry
transfer). -/
def cyclicOracle : Nat → List StreamEvent := fun _ => [.messageOutput ["ping"]]

/-- Invariant for the cyclic scenario: the active agent and every stack
entry is one of the two internal agents. -/
def cyclicInv (st : LoopState) : Prop :=
  (st.agentName = "A" ∨ st.agentName = "B") ∧
  (∀ x ∈ st.stack, x = "A" ∨ x = "B")

theorem cyclic_lookup {n : String} (h : n = "A" ∨ n = "B") :
    lookupAgent cyclicWorkflow.agents n =
      some ⟨n, .internal_vis⟩ := by
  rcases h with h | h <;> subst h <;> rfl

/-- Every iteration of the cyclic scenario loops again, preserving the
invariant. -/
theorem cyclic_step (st : LoopState) (i : Nat) (hinv : cyclicInv st) :
    ∃ st' em, loopStep cyclicWorkflow (cyclicOracle i) st = .again st' em ∧
      cyclicInv st' := by
  obtain ⟨hA, hstack⟩ := hinv
  have hl := cyclic_lookup hA
  have hnone : (lookupAgent cyclicWorkflow.agents st.agentName).isNone = false := by
    rw [hl]; rfl
  have hnext : ∃ nextName stack1,
      getNextAgentName st.stack cyclicWorkflow.startAgent = (nextName, stack1) ∧
      (nextName = "A" ∨ nextName = "B") ∧ (∀ x ∈ stack1, x = "A" ∨ x = "B") := by
    cases hs : st.stack with
    | nil => exact ⟨"A", [], rfl, Or.inl rfl, by simp⟩
    | cons top rest =>
      have htop := hstack top (by rw [hs]; simp)
      have htop' : top ≠ "" := by rcases htop with h | h <;> subst h <;> decide
      refine ⟨top, rest, ?_, htop, ?_⟩
      · simp [getNextAgentName, htop']
      · intro x hx
        exact hstack x (by rw [hs]; simp [hx])
  obtain ⟨nextName, stack1, hget, hnextAB, hstack1⟩ := hnext
  have hproc : processEvents cyclicWorkflow (cyclicOracle i) st =
      .reentry
        { agentName := nextName,
          stack := st.agentName :: stack1,
          turnMsgs := (st.turnMsgs ++
              [Message.assistant (some "ping") st.agentName .internal_rt]) ++
            [(createTransferEvents st.agentName nextName).1,
             (createTransferEvents st.agentName nextName).2],
          usage := st.usage,
          transfers := st.transfers ++ [(st.agentName, nextName)] }
        ([.message (Message.assistant (some "ping") st.agentName .internal_rt)] ++
          [.message (createTransferEvents st.agentName nextName).1,
           .message (createTransferEvents st.agentName nextName).2]) := by
    simp only [cyclicOracle, processEvents, handleStreamEvent, hl, hget]
    rfl
  refine ⟨_, _, loopStep_of_reentry hnone hproc, ?_, ?_⟩
  · exact hnextAB
  · intro x hx
    rcases List.mem_cons.mp hx with h | h
    · subst h; exact hA
    · exact hstack1 x h

/-- In the cyclic scenario the loop never completes, whatever the fuel. -/
theorem cyclic_runLoop (fuel : Nat) :
    ∀ (i : Nat) (st : LoopState) (acc : List Event), cyclicInv st →
      runLoop fuel cyclicWorkflow cyclicOracle i st acc = .outOfFuel := by
  induction fuel with
  | zero => intro i st acc _; rfl
  | succ fuel ih =>
    intro i st acc hinv
    obtain ⟨st', em, hstep, hinv'⟩ := cyclic_step st i hinv
    unfold runLoop
    rw [hstep]
    exact ih (i + 1) st' (acc ++ em) hinv'

/-- C5: the main loop has no iteration bound — for this workflow (two
internal agents repeatedly handing control to each other) and provider
behavior, `streamResponse` never terminates: whatever fuel it is given,
it is still running. -/
theorem streamResponse_unbounded_loop (fuel : Nat) :
    streamResponse fuel cyclicWorkflow cyclicOracle
      [Message.system "s", Message.user "hi"] = .outOfFuel := by
  have hmsgs : ensureSystemMessage [Message.system "s", Message.user "hi"] =
      [Message.system "s", Message.user "hi"] := by
    simp [ensureSystemMessage, Message.isSystem]
  have h := cyclic_runLoop fuel 0
    { agentName := "A", stack := [],
      turnMsgs := [Message.system "s", Message.user "hi"],
      usage := Usage.zero, transfers := [] }
    [] ⟨Or.inl rfl, by simp⟩
  simpa [streamResponse, hmsgs, createAgentCallStack, Message.assistantAgentName,
    getNextAgentName, cyclicWorkflow] using h

/-! ## Usage accounting lemmas -/

theorem prepend_reentry (em em' : List Event) (st : LoopState) :
    IterResult.prepend em (.reentry st em') = .reentry st (em ++ em') := rfl

theorem prepend_endOfStream (em em' : List Event) (st : LoopState) :
    IterResult.prepend em (.endOfStream st em') = .endOfStream st (em ++ em') := rfl

theorem processEvents_cons_reenter {w : Workflow} {ev : StreamEvent}
    {rest : List StreamEvent} {st st1 : LoopState} {em1 : List Event}
    (hh : handleStreamEvent w ev st = .reenter st1 em1) :
    processEvents w (ev :: rest) st = .reentry st1 em1 := by
  unfold processEvents; rw [hh]

theorem processEvents_cons_next {w : Workflow} {ev : StreamEvent}
    {rest : List StreamEvent} {st st1 : LoopState} {em1 : List Event}
    (hh : handleStreamEvent w ev st = .next st1 em1) :
    processEvents w (ev :: rest) st = (processEvents w rest st1).prepend em1 := by
  conv_lhs => rw [processEvents]
  rw [hh]

/-- The usage tracker is incremented exactly once per handled stream
event, by the delta of that event (zero unless it is a completed response). -/
theorem handleStreamEvent_usage (w : Workflow) (ev : StreamEvent) (st : LoopState) :
    (handleStreamEvent w ev st).state.usage = st.usage.add (eventDelta ev) := by
  cases ev <;>
    simp only [handleStreamEvent, eventDelta] <;>
    (repeat' split) <;>
    simp [EventOutcome.state, Usage.add_zero_right]

/-- A stream that runs to its end adds exactly the sum of the deltas of
its events to the usage tracker. -/
theorem processEvents_endOfStream_usage (w : Workflow) (events : List StreamEvent) :
    ∀ (st st' : LoopState) (em : List Event),
      processEvents w events st = .endOfStream st' em →
      st'.usage = st.usage.add (sumDeltas events) := by
  induction events with
  | nil =>
    intro st st' em h
    injection h with h1 h2
    subst h1
    rw [sumDeltas_nil, Usage.add_zero_right]
  | cons ev rest ih =>
    intro st st' em h
    cases hh : handleStreamEvent w ev st with
    | reenter st1 em1 =>
      rw [processEvents_cons_reenter hh] at h
      exact absurd h (by simp)
    | next st1 em1 =>
      rw [processEvents_cons_next hh] at h
      cases hr : processEvents w rest st1 with
      | reentry st2 em2 =>
        rw [hr, prepend_reentry] at h
        exact absurd h (by simp)
      | endOfStream st2 em2 =>
        rw [hr, prepend_endOfStream] at h
        injection h with h1 h2
        rw [← h1]
        have hu1 : st1.usage = st.usage.add (eventDelta ev) := by
          have h0 := handleStreamEvent_usage w ev st
          rw [hh] at h0
          exact h0
        rw [sumDeltas_cons, ih st1 st2 em2 hr, hu1, Usage.add_assoc']

/-- A stream that ends in an internal re-entry adds exactly the sum of
the deltas of its consumed prefix to the usage tracker. -/
theorem processEvents_reentry_usage (w : Workflow) (events : List StreamEvent) :
    ∀ (st st' : LoopState) (em : List Event),
      processEvents w events st = .reentry st' em →
      ∃ p s, events = p ++ s ∧ st'.usage = st.usage.add (sumDeltas p) := by
  induction events with
  | nil =>
    intro st st' em h
    exact absurd h (by simp [processEvents])
  | cons ev rest ih =>
    intro st st' em h
    cases hh : handleStreamEvent w ev st with
    | reenter st1 em1 =>
      rw [processEvents_cons_reenter hh] at h
      injection h with h1 h2
      rw [← h1]
      refine ⟨[ev], rest, rfl, ?_⟩
      have h0 := handleStreamEvent_usage w ev st
      rw [hh] at h0
      rw [sumDeltas_cons, sumDeltas_nil, Usage.add_zero_right]
      exact h0
    | next st1 em1 =>
      rw [processEvents_cons_next hh] at h
      cases hr : processEvents w rest st1 with
      | endOfStream st2 em2 =>
        rw [hr, prepend_endOfStream] at h
        exact absurd h (by simp)
      | reentry st2 em2 =>
        rw [hr, prepend_reentry] at h
        injection h with h1 h2
        rw [← h1]
        obtain ⟨p, s, hps, hu⟩ := ih st1 st2 em2 hr
        refine ⟨ev :: p, s, by simp [hps], ?_⟩
        have h0 := handleStreamEvent_usage w ev st
        rw [hh] at h0
        rw [sumDeltas_cons, ← Usage.add_assoc', ← h0]
        exact hu

theorem runLoop_succ_fatal {fuel : Nat} {w : Workflow}
    {oracle : Nat → List StreamEvent} {i : Nat} {st : LoopState} {acc : List Event}
    (h : loopStep w (oracle i) st = .fatal) :
    runLoop (fuel + 1) w oracle i st acc = .failed acc := by
  unfold runLoop; rw [h]

theorem runLoop_succ_complete {fuel : Nat} {w : Workflow}
    {oracle : Nat → List StreamEvent} {i : Nat} {st st' : LoopState}
    {acc em : List Event}
    (h : loopStep w (oracle i) st = .complete st' em) :
    runLoop (fuel + 1) w oracle i st acc =
      .completed (acc ++ em ++ [.usage st'.usage]) := by
  unfold runLoop; rw [h]

theorem runLoop_succ_again {fuel : Nat} {w : Workflow}
    {oracle : Nat → List StreamEvent} {i : Nat} {st st' : LoopState}
    {acc em : List Event}
    (h : loopStep w (oracle i) st = .again st' em) :
    runLoop (fuel + 1) w oracle i st acc =
      runLoop fuel w oracle (i + 1) st' (acc ++ em) := by
  conv_lhs => rw [runLoop]
  rw [h]

theorem Usage.zero_add_left (a : Usage) : Usage.zero.add a = a := by
  cases a; simp [Usage.add, Usage.zero]

theorem sumDeltas_append (a b : List StreamEvent) :
    sumDeltas (a ++ b) = (sumDeltas a).add (sumDeltas b) := by
  induction a with
  | nil => rw [List.nil_append, sumDeltas_nil, Usage.zero_add_left]
  | cons e rest ih =>
    rw [List.cons_append, sumDeltas_cons, sumDeltas_cons, ih, Usage.add_assoc']

theorem prepend_state (em : List Event) (r : IterResult) :
    (IterResult.prepend em r).state = r.state := by
  cases r <;> rfl

/-- Ghost observer of one stream: the prefix of the events that the
`for await` loop actually handles — the whole list when the stream runs
to its end, the events up to and including the one that triggers the
internal re-entry otherwise. -/
def streamConsumed (w : Workflow) (events : List StreamEvent) (st : LoopState) :
    List StreamEvent :=
  match events with
  | [] => []
  | ev :: rest =>
    match handleStreamEvent w ev st with
    | .reenter _ _ => [ev]
    | .next st' _ => ev :: streamConsumed w rest st'

/-- Ghost observer of the whole run: the concatenation, over the loop
iterations until completion, of each iteration's consumed stream prefix. -/
def runConsumed (fuel : Nat) (w : Workflow) (oracle : Nat → List StreamEvent)
    (i : Nat) (st : LoopState) : List StreamEvent :=
  match fuel with
  | 0 => []
  | fuel + 1 =>
    match loopStep w (oracle i) st with
    | .fatal => []
    | .complete _ _ => streamConsumed w (oracle i) st
    | .again st' _ => streamConsumed w (oracle i) st ++ runConsumed fuel w oracle (i + 1) st'

theorem streamConsumed_cons_reenter {w : Workflow} {ev : StreamEvent}
    {rest : List StreamEvent} {st st1 : LoopState} {em1 : List Event}
    (hh : handleStreamEvent w ev st = .reenter st1 em1) :
    streamConsumed w (ev :: rest) st = [ev] := by
  unfold streamConsumed; rw [hh]

theorem streamConsumed_cons_next {w : Workflow} {ev : StreamEvent}
    {rest : List StreamEvent} {st st1 : LoopState} {em1 : List Event}
    (hh : handleStreamEvent w ev st = .next st1 em1) :
    streamConsumed w (ev :: rest) st = ev :: streamConsumed w rest st1 := by
  conv_lhs => rw [streamConsumed]
  rw [hh]

theorem runConsumed_succ_complete {fuel : Nat} {w : Workflow}
    {oracle : Nat → List StreamEvent} {i : Nat} {st st' : LoopState}
    {em : List Event}
    (h : loopStep w (oracle i) st = .complete st' em) :
    runConsumed (fuel + 1) w oracle i st = streamConsumed w (oracle i) st := by
  conv_lhs => rw [runConsumed]
  rw [h]

theorem runConsumed_succ_again {fuel : Nat} {w : Workflow}
    {oracle : Nat → List StreamEvent} {i : Nat} {st st' : LoopState}
    {em : List Event}
    (h : loopStep w (oracle i) st = .again st' em) :
    runConsumed (fuel + 1) w oracle i st =
      streamConsumed w (oracle i) st ++ runConsumed fuel w oracle (i + 1) st' := by
  conv_lhs => rw [runConsumed]
  rw [h]

/-- The consumed events are a genuine prefix of the stream. -/
theorem streamConsumed_initial_segment (w : Workflow) (events : List StreamEvent) :
    ∀ st : LoopState, ∃ s, events = streamConsumed w events st ++ s := by
  induction events with
  | nil => intro st; exact ⟨[], rfl⟩
  | cons ev rest ih =>
    intro st
    cases hh : handleStreamEvent w ev st with
    | reenter st1 em1 =>
      rw [streamConsumed_cons_reenter hh]
      exact ⟨rest, rfl⟩
    | next st1 em1 =>
      rw [streamConsumed_cons_next hh]
      obtain ⟨s, hs⟩ := ih st1
      exact ⟨s, by rw [List.cons_append, ← hs]⟩

/-- Whichever way a stream ends, the usage after it is the usage before
it plus exactly the sum of the deltas of the consumed events. -/
theorem processEvents_usage_consumed (w : Workflow) (events : List StreamEvent) :
    ∀ st : LoopState,
      (processEvents w events st).state.usage =
        st.usage.add (sumDeltas (streamConsumed w events st)) := by
  induction events with
  | nil =>
    intro st
    simp [processEvents, streamConsumed, IterResult.state, sumDeltas_nil,
      Usage.add_zero_right]
  | cons ev rest ih =>
    intro st
    cases hh : handleStreamEvent w ev st with
    | reenter st1 em1 =>
      rw [processEvents_cons_reenter hh, streamConsumed_cons_reenter hh]
      have h0 := handleStreamEvent_usage w ev st
      rw [hh] at h0
      simpa [IterResult.state, EventOutcome.state, sumDeltas_cons, sumDeltas_nil,
        Usage.add_zero_right] using h0
    | next st1 em1 =>
      rw [processEvents_cons_next hh, streamConsumed_cons_next hh, prepend_state,
        ih st1, sumDeltas_cons]
      have h0 := handleStreamEvent_usage w ev st
      rw [hh] at h0
      have h0' : st1.usage = st.usage.add (eventDelta ev) := h0
      rw [h0', Usage.add_assoc']

/-- An iteration that continues or completes ends in the state produced
by its stream. -/
theorem loopStep_state_eq (w : Workflow) (events : List StreamEvent)
    (st st' : LoopState) (em : List Event)
    (h : loopStep w events st = .complete st' em ∨
      loopStep w events st = .again st' em) :
    (processEvents w events st).state = st' := by
  by_cases hn : (lookupAgent w.agents st.agentName).isNone = true
  · have hfatal : loopStep w events st = .fatal := by
      unfold loopStep; rw [hn]; rfl
    rcases h with h | h <;> rw [hfatal] at h <;> exact absurd h (by simp)
  · have hn' : (lookupAgent w.agents st.agentName).isNone = false := by
      cases hl : lookupAgent w.agents st.agentName with
      | none => rw [hl] at hn; exact absurd rfl hn
      | some cfg => rfl
    cases hp : processEvents w events st with
    | reentry st1 em1 =>
      have hstep := loopStep_of_reentry hn' hp
      rcases h with h | h <;> rw [hstep] at h
      · exact absurd h (by simp)
      · injection h with h1 h2
    | endOfStream st1 em1 =>
      have hstep := loopStep_of_endOfStream hn' hp
      rcases h with h | h <;> rw [hstep] at h <;>
        by_cases hc : turnCompleteCheck w st1 = true
      · rw [if_pos hc] at h
        injection h with h1 h2
      · rw [if_neg hc] at h; exact absurd h (by simp)
      · rw [if_pos hc] at h; exact absurd h (by simp)
      · rw [if_neg hc] at h
        injection h with h1 h2

/-- Composed across all loop iterations: a completed run ends with the
usage snapshot equal to the initial usage plus the componentwise sum of
the deltas of every consumed event of the whole run. -/
theorem runLoop_completed_usage_eq (w : Workflow)
    (oracle : Nat → List StreamEvent) (fuel : Nat) :
    ∀ (i : Nat) (st : LoopState) (acc evs : List Event),
      runLoop fuel w oracle i st acc = .completed evs →
      evs.getLast? =
        some (Event.usage (st.usage.add (sumDeltas (runConsumed fuel w oracle i st)))) := by
  induction fuel with
  | zero =>
    intro i st acc evs h
    exact absurd h (by simp [runLoop])
  | succ fuel ih =>
    intro i st acc evs h
    cases hstep : loopStep w (oracle i) st with
    | fatal =>
      rw [runLoop_succ_fatal hstep] at h
      exact absurd h (by simp)
    | complete st' em =>
      rw [runLoop_succ_complete hstep] at h
      injection h with h1
      subst h1
      rw [runConsumed_succ_complete hstep]
      have husage := processEvents_usage_consumed w (oracle i) st
      rw [loopStep_state_eq w (oracle i) st st' em (Or.inl hstep)] at husage
      rw [List.getLast?_concat, husage]
    | again st' em =>
      rw [runLoop_succ_again hstep] at h
      have hrec := ih (i + 1) st' (acc ++ em) evs h
      rw [runConsumed_succ_again hstep, sumDeltas_append]
      have husage := processEvents_usage_consumed w (oracle i) st
      rw [loopStep_state_eq w (oracle i) st st' em (Or.inr hstep)] at husage
      rw [← Usage.add_assoc', ← husage]
      exact hrec

/-- Whether the repaired transcript is exactly one system message (the
greeting-shortcut condition of `streamResponse`). -/
def isSingleSystemTranscript : List Message → Bool
  | [Message.system _] => true
  | _ => false

/-- On the non-greeting path, `streamResponse` is the loop started from
the documented initial state: repaired transcript, reconstructed call
stack with the initial agent popped, zero usage. -/
theorem streamResponse_loop_eq (fuel : Nat) (w : Workflow)
    (oracle : Nat → List StreamEvent) (messages : List Message)
    (h : isSingleSystemTranscript (ensureSystemMessage messages) = false) :
    streamResponse fuel w oracle messages =
      runLoop fuel w oracle 0
        { agentName := (getNextAgentName (createAgentCallStack (ensureSystemMessage messages))
            w.startAgent).1,
          stack := (getNextAgentName (createAgentCallStack (ensureSystemMessage messages))
            w.startAgent).2,
          turnMsgs := ensureSystemMessage messages,
          usage := Usage.zero, transfers := [] } [] := by
  simp only [streamResponse]
  generalize hl : ensureSystemMessage messages = l at h ⊢
  cases l with
  | nil => rfl
  | cons m rest =>
    cases rest with
    | nil =>
      cases m with
      | system c => simp [isSingleSystemTranscript] at h
      | user c => rfl
      | assistant a b c => rfl
      | assistantToolCalls a b => rfl
      | tool a b c => rfl
    | cons m2 rest2 => cases m <;> rfl

/-- Across one iteration that continues or completes, the usage tracker
does not decrease, given nonnegative deltas. -/
theorem loopStep_usage_le (w : Workflow) (events : List StreamEvent)
    (st st' : LoopState) (em : List Event)
    (hnn : ∀ ev ∈ events, (eventDelta ev).nonneg)
    (h : loopStep w events st = .complete st' em ∨
      loopStep w events st = .again st' em) :
    st.usage.le st'.usage := by
  by_cases hn : (lookupAgent w.agents st.agentName).isNone = true
  · have hfatal : loopStep w events st = .fatal := by
      unfold loopStep; rw [hn]; rfl
    rcases h with h | h <;> rw [hfatal] at h <;> exact absurd h (by simp)
  · have hn' : (lookupAgent w.agents st.agentName).isNone = false := by
      cases hl : lookupAgent w.agents st.agentName with
      | none => rw [hl] at hn; exact absurd rfl hn
      | some cfg => rfl
    cases hp : processEvents w events st with
    | reentry st1 em1 =>
      have hstep := loopStep_of_reentry hn' hp
      have hst : st' = st1 := by
        rcases h with h | h <;> rw [hstep] at h
        · exact absurd h (by simp)
        · injection h with h1 h2; exact h1.symm
      subst hst
      obtain ⟨p, s, hps, hu⟩ := processEvents_reentry_usage w events st st' em1 hp
      rw [hu]
      refine Usage.le_add_of_nonneg _ (sumDeltas_nonneg ?_)
      intro e he
      exact hnn e (by rw [hps]; exact List.mem_append_left s he)
    | endOfStream st1 em1 =>
      have hstep := loopStep_of_endOfStream hn' hp
      have hst : st' = st1 := by
        rcases h with h | h <;> rw [hstep] at h <;>
          by_cases hc : turnCompleteCheck w st1 = true
        · rw [if_pos hc] at h; injection h with h1 _; exact h1.symm
        · rw [if_neg hc] at h; exact absurd h (by simp)
        · rw [if_pos hc] at h; exact absurd h (by simp)
        · rw [if_neg hc] at h; injection h with h1 _; exact h1.symm
      subst hst
      rw [processEvents_endOfStream_usage w events st st' em1 hp]
      exact Usage.le_add_of_nonneg _ (sumDeltas_nonneg hnn)

/-- The final event of a completed run is the usage snapshot of the final
state, which dominates the initial usage (given nonnegative deltas). -/
theorem runLoop_completed_usage (w : Workflow) (oracle : Nat → List StreamEvent)
    (hnn : ∀ i, ∀ ev ∈ oracle i, (eventDelta ev).nonneg) (fuel : Nat) :
    ∀ (i : Nat) (st : LoopState) (acc evs : List Event),
      runLoop fuel w oracle i st acc = .completed evs →
      ∃ u, evs.getLast? = some (Event.usage u) ∧ st.usage.le u := by
  induction fuel with
  | zero =>
    intro i st acc evs h
    exact absurd h (by simp [runLoop])
  | succ fuel ih =>
    intro i st acc evs h
    cases hstep : loopStep w (oracle i) st with
    | fatal =>
      rw [runLoop_succ_fatal hstep] at h
      exact absurd h (by simp)
    | complete st' em =>
      rw [runLoop_succ_complete hstep] at h
      injection h with h1
      subst h1
      refine ⟨st'.usage, ?_, ?_⟩
      · exact List.getLast?_concat _
      · exact loopStep_usage_le w (oracle i) st st' em (hnn i) (Or.inl hstep)
    | again st' em =>
      rw [runLoop_succ_again hstep] at h
      obtain ⟨u, hu1, hu2⟩ := ih (i + 1) st' (acc ++ em) evs h
      exact ⟨u, hu1, Usage.le_trans'
        (loopStep_usage_le w (oracle i) st st' em (hnn i) (Or.inr hstep)) hu2⟩

/-- C8: within one invocation, the usage tracker is incremented exactly
once per handled event, by the usage block of the completed response (zero
for all other events); it is non-decreasing over time given nonnegative
provider counts; a stream run to the end adds exactly the componentwise
sum of its deltas, a re-entered stream exactly the sum over its consumed
prefix (the consumed events being a genuine prefix of the stream); the
final event of a completed run is the usage snapshot, equal — composed
across all loop iterations — to the initial usage plus the componentwise
sum of the deltas of every consumed event of the run, hence dominating
the initial usage when deltas are nonnegative; and at the invocation
level (where the tracker starts at zero) the final snapshot equals the
componentwise sum of all consumed deltas outright. -/
theorem usage_accounting :
    (∀ (w : Workflow) (ev : StreamEvent) (st : LoopState),
      (handleStreamEvent w ev st).state.usage = st.usage.add (eventDelta ev)) ∧
    (∀ (w : Workflow) (ev : StreamEvent) (st : LoopState),
      (eventDelta ev).nonneg →
      st.usage.le (handleStreamEvent w ev st).state.usage) ∧
    (∀ (w : Workflow) (events : List StreamEvent) (st st' : LoopState)
        (em : List Event),
      processEvents w events st = .endOfStream st' em →
      st'.usage = st.usage.add (sumDeltas events)) ∧
    (∀ (w : Workflow) (events : List StreamEvent) (st st' : LoopState)
        (em : List Event),
      processEvents w events st = .reentry st' em →
      ∃ p s, events = p ++ s ∧ st'.usage = st.usage.add (sumDeltas p)) ∧
    (∀ (w : Workflow) (oracle : Nat → List StreamEvent),
      (∀ i, ∀ ev ∈ oracle i, (eventDelta ev).nonneg) →
      ∀ (fuel i : Nat) (st : LoopState) (acc evs : List Event),
        runLoop fuel w oracle i st acc = .completed evs →
        ∃ u, evs.getLast? = some (Event.usage u) ∧ st.usage.le u) ∧
    (∀ (w : Workflow) (events : List StreamEvent) (st : LoopState),
      (∃ s, events = streamConsumed w events st ++ s) ∧
      (processEvents w events st).state.usage =
        st.usage.add (sumDeltas (streamConsumed w events st))) ∧
    (∀ (w : Workflow) (oracle : Nat → List StreamEvent) (fuel i : Nat)
        (st : LoopState) (acc evs : List Event),
      runLoop fuel w oracle i st acc = .completed evs →
      evs.getLast? =
        some (Event.usage (st.usage.add
          (sumDeltas (runConsumed fuel w oracle i st))))) ∧
    (∀ (fuel : Nat) (w : Workflow) (oracle : Nat → List StreamEvent)
        (messages : List Message) (evs : List Event),
      isSingleSystemTranscript (ensureSystemMessage messages) = false →
      streamResponse fuel w oracle messages = .completed evs →
      evs.getLast? =
        some (Event.usage (sumDeltas (runConsumed fuel w oracle 0
          { agentName := (getNextAgentName
              (createAgentCallStack (ensureSystemMessage messages)) w.startAgent).1,
            stack := (getNextAgentName
              (createAgentCallStack (ensureSystemMessage messages)) w.startAgent).2,
            turnMsgs := ensureSystemMessage messages,
            usage := Usage.zero, transfers := [] })))) := by
  refine ⟨handleStreamEvent_usage, ?_, ?_, ?_, ?_, ?_, ?_, ?_⟩
  · intro w ev st hpos
    rw [handleStreamEvent_usage]
    exact Usage.le_add_of_nonneg _ hpos
  · intro w events st st' em h
    exact processEvents_endOfStream_usage w events st st' em h
  · intro w events st st' em h
    exact processEvents_reentry_usage w events st st' em h
  · intro w oracle hnn fuel i st acc evs h
    exact runLoop_completed_usage w oracle hnn fuel i st acc evs h
  · intro w events st
    exact ⟨streamConsumed_initial_segment w events st, processEvents_usage_consumed w events st⟩
  · intro w oracle fuel i st acc evs h
    exact runLoop_completed_usage_eq w oracle fuel i st acc evs h
  · intro fuel w oracle messages evs hns h
    rw [streamResponse_loop_eq fuel w oracle messages hns] at h
    have hrun := runLoop_completed_usage_eq w oracle fuel 0 _ [] evs h
    rwa [Usage.zero_add_left] at hrun

/-- Workflow for the concrete usage-accounting run. -/
def usageScenarioWorkflow : Workflow :=
  { projectId := "p", name := "usage", startAgent := "A",
    agents := [⟨"A", .user_facing⟩], prompts := [] }

/-- Provider behavior for the concrete usage-accounting run: one completed
response with usage (5, 3, 2), then a user-facing message. -/
def usageScenarioOracle : Nat → List StreamEvent :=
  fun _ => [.responseDone [] ⟨5, 3, 2⟩, .messageOutput ["hi"]]

/-- C8 witness: a concrete invocation with one completed response of
usage (5, 3, 2) ends with a final snapshot equal to exactly that sum of
the consumed deltas. -/
theorem usage_accounting_witness :
    ∃ evs, streamResponse 1 usageScenarioWorkflow usageScenarioOracle
        [Message.system "s", Message.user "q"] = RunResult.completed evs ∧
      evs.getLast? = some (Event.usage ⟨5, 3, 2⟩) := by
  refine ⟨[Event.message (Message.assistant (some "hi") "A" ResponseType.external_rt),
           Event.usage ⟨5, 3, 2⟩], by decide, ?_⟩
  have h := usage_accounting.2.2.2.2.2.2.2 1 usageScenarioWorkflow usageScenarioOracle
    [Message.system "s", Message.user "q"]
    [Event.message (Message.assistant (some "hi") "A" ResponseType.external_rt),
     Event.usage ⟨5, 3, 2⟩] (by decide) (by decide)
  rw [h]
  decide

end Rowboat
